import Mathlib

/-
  Verification of the scheduling-request pipeline of the nim_slack_bot
  repository.  JavaScript strings are embedded as List Char; JavaScript
  numbers appearing here are natural numbers (minute offsets, HTTP status
  codes, retry counters) or rationals where the source stores a decimal
  score.  Each definition mirrors one function of the source tree:
    - src/utils/validators.js   (namespace Validators)
    - src/utils.js              (namespace SimpleUtils)
    - src/nim-service.js        (namespace NimService)
    - src/services/nim-service.js (namespace ServicesNim)
-/

namespace NimBot

/-- Embed a Lean string literal as the List Char representation used for
JavaScript strings throughout this development. -/
def js (s : String) : List Char := s.data

/-- Whitespace test used for the JavaScript regex class backslash-s and for
String.prototype.trim (restricted to the ASCII whitespace actually reachable
from Slack command text). -/
def isWsChar (c : Char) : Bool := c = ' ' || c = '\t' || c = '\n' || c = '\r'

/-- JavaScript String.prototype.trim: drop whitespace from both ends. -/
def trimJs (s : List Char) : List Char :=
  ((s.dropWhile isWsChar).reverse.dropWhile isWsChar).reverse

/-- JavaScript String.prototype.toLowerCase on ASCII input. -/
def toLowerJs (s : List Char) : List Char := s.map Char.toLower

/-- Decimal digit test, the regex class backslash-d. -/
def isDigitChar (c : Char) : Bool := '0' ≤ c && c ≤ '9'

/-- The character for a decimal digit value, as produced by
Number.prototype.toString in base 10. -/
def digitChar (d : Nat) : Char := Char.ofNat (48 + d)

/-- Numeric value of a decimal digit character. -/
def digitVal (c : Char) : Nat := c.toNat - 48

/-- Decimal rendering of a natural number, as JavaScript
Number.prototype.toString produces for a nonnegative integer. -/
def toDecimal (n : Nat) : List Char :=
  if _h : n < 10 then [digitChar n]
  else toDecimal (n / 10) ++ [digitChar (n % 10)]
termination_by n
decreasing_by
  exact Nat.div_lt_self (by omega) (by omega)

/-- Decimal reading of a digit string, the behaviour of the JavaScript
Number conversion on a plain string of digits (the only inputs the source
feeds it; NaN results on malformed input are outside this model and are
noted where relevant). -/
def parseDecimal (cs : List Char) : Nat :=
  cs.foldl (fun acc c => acc * 10 + digitVal c) 0

/-- String.prototype.padStart(2, "0") from minutesToTime. -/
def padTwo (cs : List Char) : List Char :=
  List.replicate (2 - cs.length) '0' ++ cs

/-- JavaScript String.prototype.split with a single-character separator. -/
def splitOnChar (sep : Char) : List Char → List (List Char)
  | [] => [[]]
  | c :: cs =>
    let r := splitOnChar sep cs
    if c = sep then [] :: r
    else
      match r with
      | [] => [[c]]
      | h :: t => (c :: h) :: t

/-- Source src/utils/validators.js lines 236-239: split on the colon and
recombine as hours times 60 plus minutes. -/
def timeToMinutes (timeStr : List Char) : Nat :=
  let parts := splitOnChar ':' timeStr
  parseDecimal (parts.getD 0 []) * 60 + parseDecimal (parts.getD 1 [])

/-- Source src/utils/validators.js lines 247-251: render floor(m/60) hours
and m mod 60 minutes, both zero padded to width two, joined by a colon. -/
def minutesToTime (minutes : Nat) : List Char :=
  padTwo (toDecimal (minutes / 60)) ++ ':' :: padTwo (toDecimal (minutes % 60))

namespace Validators

/-- Rests of the input after consuming one or two decimal digits, the
backtracking alternatives of the regex piece d-brace-1-comma-2 (greedy two
digits first, then one). -/
def afterDigits12 : List Char → List (List Char)
  | [] => []
  | c1 :: r =>
    if isDigitChar c1 then
      match r with
      | c2 :: r2 => if isDigitChar c2 then [r2, r] else [r]
      | [] => [r]
    else []

/-- Rest of the input after consuming exactly two decimal digits. -/
def afterTwoDigits : List Char → Option (List Char)
  | c1 :: c2 :: r => if isDigitChar c1 && isDigitChar c2 then some r else none
  | _ => none

/-- Rest of the input after a case-insensitive am or pm marker. -/
def afterAmPm : List Char → Option (List Char)
  | a :: m :: r =>
    if (a.toLower = 'a' || a.toLower = 'p') && m.toLower = 'm' then some r
    else none
  | _ => none

/-- Rest of the input after one fixed character. -/
def afterChar (c : Char) : List Char → Option (List Char)
  | d :: r => if d = c then some r else none
  | _ => none

/-- Anchored test for the first timeframe regex of normalizeTimeframe,
the 12-hour form: one or two digits, am or pm, optional spaces, a dash,
optional spaces, one or two digits, am or pm (case-insensitive). -/
def matchFmt1 (s : List Char) : Bool :=
  (afterDigits12 s).any fun r1 =>
    match afterAmPm r1 with
    | none => false
    | some r2 =>
      match afterChar '-' (r2.dropWhile isWsChar) with
      | none => false
      | some r3 =>
        (afterDigits12 (r3.dropWhile isWsChar)).any fun r4 =>
          match afterAmPm r4 with
          | some r5 => r5.isEmpty
          | none => false

/-- Anchored test for the second timeframe regex, the 24-hour form:
one or two digits, a colon, two digits, a dash with optional surrounding
spaces, one or two digits, a colon, two digits. -/
def matchFmt2 (s : List Char) : Bool :=
  (afterDigits12 s).any fun r1 =>
    match afterChar ':' r1 with
    | none => false
    | some r2 =>
      match afterTwoDigits r2 with
      | none => false
      | some r3 =>
        match afterChar '-' (r3.dropWhile isWsChar) with
        | none => false
        | some r4 =>
          (afterDigits12 (r4.dropWhile isWsChar)).any fun r5 =>
            match afterChar ':' r5 with
            | none => false
            | some r6 =>
              match afterTwoDigits r6 with
              | some r7 => r7.isEmpty
              | none => false

/-- Anchored test for the third timeframe regex, the mixed form:
hours, colon, minutes, optional spaces, am or pm, dash with optional
surrounding spaces, hours, colon, minutes, optional spaces, am or pm. -/
def matchFmt3 (s : List Char) : Bool :=
  (afterDigits12 s).any fun r1 =>
    match afterChar ':' r1 with
    | none => false
    | some r2 =>
      match afterTwoDigits r2 with
      | none => false
      | some r3 =>
        match afterAmPm (r3.dropWhile isWsChar) with
        | none => false
        | some r4 =>
          match afterChar '-' (r4.dropWhile isWsChar) with
          | none => false
          | some r5 =>
            (afterDigits12 (r5.dropWhile isWsChar)).any fun r6 =>
              match afterChar ':' r6 with
              | none => false
              | some r7 =>
                match afterTwoDigits r7 with
                | none => false
                | some r8 =>
                  match afterAmPm (r8.dropWhile isWsChar) with
                  | some r9 => r9.isEmpty
                  | none => false

/-- Normalized timeframe object: startTime and endTime in minutes since
midnight plus the formatted display string. -/
structure TimeNorm where
  startTime : Nat
  endTime : Nat
  formatted : List Char
deriving DecidableEq, Repr

/-- Source src/utils/validators.js lines 219-228.  The body of
parseTimeMatch is an unfinished TODO placeholder: it ignores the regex
match it is given and unconditionally returns null. -/
def parseTimeMatch : Option TimeNorm := none

/-- The preset table of normalizeTimeframe, keyed by the lower-cased
timeframe string. -/
def presetLookup (l : List Char) : Option (List Char × List Char) :=
  if l = js "morning" then some (js "09:00", js "12:00")
  else if l = js "afternoon" then some (js "13:00", js "17:00")
  else if l = js "evening" then some (js "18:00", js "21:00")
  else if l = js "workday" then some (js "09:00", js "17:00")
  else if l = js "business hours" then some (js "09:00", js "17:00")
  else none

/-- Source src/utils/validators.js lines 177-214: try the three format
regexes in order, and on the first hit return parseTimeMatch of the match
(which is the null placeholder); otherwise consult the preset table with
the lower-cased input; otherwise null. -/
def normalizeTimeframe (timeframe : List Char) : Option TimeNorm :=
  if matchFmt1 timeframe || matchFmt2 timeframe || matchFmt3 timeframe then
    parseTimeMatch
  else
    match presetLookup (toLowerJs timeframe) with
    | some (st, en) =>
      some ⟨timeToMinutes st, timeToMinutes en, st ++ js " - " ++ en⟩
    | none => none

/-- Result of validateTimeframe: an error message or the normalized
timeframe with its duration. -/
inductive TfResult where
  | invalid (error : List Char)
  | valid (normalized : TimeNorm) (duration : Nat)
deriving DecidableEq, Repr

/-- The post-resolution checks of validateTimeframe (source lines
133-160), applied to whatever normalized offsets were produced: order,
minimum duration 60, maximum duration 960. -/
def checkBounds (normalized : TimeNorm) : TfResult :=
  if normalized.endTime ≤ normalized.startTime then
    .invalid (js "End time must be after start time")
  else
    let duration := normalized.endTime - normalized.startTime
    if duration < 60 then
      .invalid (js "Schedule duration must be at least 1 hour")
    else if 960 < duration then
      .invalid (js "Schedule duration cannot exceed 16 hours")
    else .valid normalized duration

/-- Source src/utils/validators.js lines 114-169: reject a missing
timeframe, normalize the trimmed input, reject when normalization fails,
then apply the three bound checks. -/
def validateTimeframe (timeframe : List Char) : TfResult :=
  if timeframe = [] then .invalid (js "Timeframe is required")
  else
    match normalizeTimeframe (trimJs timeframe) with
    | none =>
      .invalid (js "Invalid timeframe format. Use formats like \"9AM-5PM\", \"09:00-17:00\", or \"morning\"")
    | some normalized => checkBounds normalized

/-- Minute test of the isValidTime regex: a digit 0-5 then any digit. -/
def validMins : List Char → Bool
  | [m1, m2] => ('0' ≤ m1 && m1 ≤ '5') && isDigitChar m2
  | _ => false

/-- Source src/utils/validators.js lines 355-363: anchored test for the
time regex, hours 0-23 (one or two digits) then colon then minutes. -/
def isValidTime (timeStr : List Char) : Bool :=
  match timeStr with
  | h1 :: ':' :: rest => isDigitChar h1 && validMins rest
  | h1 :: h2 :: ':' :: rest =>
    (((h1 = '0' || h1 = '1') && isDigitChar h2) ||
      (h1 = '2' && ('0' ≤ h2 && h2 ≤ '3'))) && validMins rest
  | _ => false

/-- Parsed task.  The id field of the source (generateTaskId, built from
the clock and a random suffix) is an impure fresh identifier and is not
part of this model; no claim mentions it. -/
structure Task where
  description : List Char
  priority : List Char
  type : List Char
  preferred_time : Option (List Char)
deriving DecidableEq, Repr

/-- True when the list is free of the line separators that the regex dot
refuses to match. -/
def noNewline (cs : List Char) : Bool := !cs.any (fun c => c = '\n' || c = '\r')

/-- One backtracking step of the task regex: does splitting the input
after d description characters succeed, with optional spaces, an opening
parenthesis, a nonempty close-free parameter group, and a closing
parenthesis at the very end. -/
def taskSplitOk (s : List Char) (d : Nat) : Option (List Char × List Char) :=
  let desc := s.take d
  match (s.drop d).dropWhile isWsChar with
  | '(' :: body =>
    match body.getLast? with
    | some ')' =>
      let inner := body.dropLast
      if inner ≠ [] && !inner.any (fun c => c = ')') && noNewline desc then
        some (desc, inner)
      else none
    | _ => none
  | _ => none

/-- The anchored task regex of parseTask: a nonempty lazy description,
optional spaces, then a parenthesized nonempty parameter group ending the
string.  The lazy quantifier takes the shortest description, so the split
positions 1 to length are tried in increasing order and the first success
wins.  Returns the description part and the group interior. -/
def taskMatch (s : List Char) : Option (List Char × List Char) :=
  (List.range s.length).findSome? (fun i => taskSplitOk s (i + 1))

/-- The priority vocabulary of parseTask and validateTask. -/
def validPriorities : List (List Char) := [js "high", js "medium", js "low"]

/-- The type vocabulary of parseTask and validateTask. -/
def validTypes : List (List Char) := [js "general", js "meeting", js "learning"]

/-- One iteration of the parameter loop of parseTask: a parameter that is
a known priority sets the priority, else a known type sets the type, else
a valid time sets the preferred time, else it is silently ignored. -/
def applyParam (acc : Task) (param : List Char) : Task :=
  if validPriorities.contains param then { acc with priority := param }
  else if validTypes.contains param then { acc with type := param }
  else if isValidTime param then { acc with preferred_time := some param }
  else acc

/-- Source src/utils/validators.js lines 57-106: when the task regex does
not match, the whole trimmed string is the description with defaults;
otherwise split the parameter group on commas, trim and lower-case each
parameter, and fold them over the defaults. -/
def parseTask (taskText : List Char) : Task :=
  match taskMatch taskText with
  | none => ⟨trimJs taskText, js "medium", js "general", none⟩
  | some (desc, inner) =>
    let params := (splitOnChar ',' inner).map (fun p => toLowerJs (trimJs p))
    params.foldl applyParam ⟨trimJs desc, js "medium", js "general", none⟩

lemma dropWhile_length_le (p : Char → Bool) (l : List Char) :
    (l.dropWhile p).length ≤ l.length := by
  induction l with
  | nil => simp
  | cons a t ih =>
    rw [List.dropWhile_cons]
    split
    · exact Nat.le_succ_of_le ih
    · exact Nat.le_refl _

lemma tok_dec1 (p : Char → Bool) (c : Char) (l : List Char) :
    ((l.dropWhile p).drop 1).length < (c :: l).length := by
  have h := dropWhile_length_le p l
  simp only [List.length_drop, List.length_cons]
  omega

lemma tok_dec2 (c : Char) (l : List Char) (h : ¬ c = '"') :
    ((c :: l).dropWhile (fun x => x ≠ '"')).length < (c :: l).length := by
  rw [List.dropWhile_cons, if_pos (by simpa using h)]
  exact Nat.lt_succ_of_le (dropWhile_length_le _ _)

/-- Tokenizer behaviour of the global regex match in parseScheduleCommand:
alternation of runs of non-quote characters and double-quoted segments
(kept verbatim with their quotes); a quote whose closing partner is missing
is skipped, its tail forming one final unquoted run.  When the characters
after an opening quote are dropped up to the next quote, a nonempty
remainder necessarily starts with that closing quote, so the two cases
below are exactly the closing-found and closing-missing cases. -/
def tokenize (s : List Char) : List (List Char) :=
  match s with
  | [] => []
  | c :: rest =>
    if hq : c = '"' then
      if _hr : rest.dropWhile (fun x => x ≠ '"') = [] then
        if (rest.takeWhile (fun x => x ≠ '"')).isEmpty then []
        else [rest.takeWhile (fun x => x ≠ '"')]
      else
        ('"' :: rest.takeWhile (fun x => x ≠ '"') ++ ['"']) ::
          tokenize ((rest.dropWhile (fun x => x ≠ '"')).drop 1)
    else
      ((c :: rest).takeWhile (fun x => x ≠ '"')) ::
        tokenize ((c :: rest).dropWhile (fun x => x ≠ '"'))
termination_by s.length
decreasing_by
  · exact tok_dec1 _ _ _
  · exact tok_dec2 _ _ ‹_›

/-- Result of parseScheduleCommand in validators.js. -/
structure ParsedCommand where
  timeframe : Option (List Char)
  tasks : List Task
deriving DecidableEq, Repr

/-- The filter of parseScheduleCommand keeping only tokens that start and
end with a double quote. -/
def isQuotedTok (p : List Char) : Bool :=
  p.head? = some '"' && p.getLast? = some '"'

/-- Task pipeline of parseScheduleCommand over the tokens after the first:
keep the quoted tokens, strip their quotes, and parse each as a task.  The
null filter of the source never fires because parseTask is total here, as
its try block cannot throw. -/
def extractTasks (toks : List (List Char)) : List Task :=
  (toks.filter isQuotedTok).map (fun p => parseTask (p.drop 1).dropLast)

/-- Source src/utils/validators.js lines 21-49: empty or blank input gives
no timeframe and no tasks; otherwise the first token, trimmed, is the
timeframe and the later tokens feed the task pipeline. -/
def parseScheduleCommand (text : List Char) : ParsedCommand :=
  if trimJs text = [] then ⟨none, []⟩
  else
    match tokenize text with
    | [] => ⟨none, []⟩
    | p0 :: rest => ⟨some (trimJs p0), extractTasks rest⟩

/-- Command text made of a timeframe-and-separator prefix followed by the
given quoted task strings: each pair contributes its quote-free separator
and then its task string wrapped in double quotes. -/
def quotedTasksText (ps : List (List Char × List Char)) : List Char :=
  (ps.map (fun p => p.1 ++ '"' :: p.2 ++ ['"'])).flatten

/-- Validation verdict used by validateTask, validateTasks and
validateInput. -/
inductive VResult where
  | ok
  | err (error : List Char)
deriving DecidableEq, Repr

/-- Source src/utils/validators.js lines 301-347: description required and
at most 200 characters; priority and type, when present, must come from
the vocabularies; preferred time, when present, must pass isValidTime. -/
def validateTask (task : Task) : VResult :=
  if task.description = [] || trimJs task.description = [] then
    .err (js "Task description is required")
  else if 200 < task.description.length then
    .err (js "Task description cannot exceed 200 characters")
  else if task.priority ≠ [] && !validPriorities.contains task.priority then
    .err (js "Priority must be one of: high, medium, low")
  else if task.type ≠ [] && !validTypes.contains task.type then
    .err (js "Type must be one of: general, meeting, learning")
  else
    match task.preferred_time with
    | some p =>
      if p ≠ [] && !isValidTime p then .err (js "Invalid preferred time format")
      else .ok
    | none => .ok

/-- The indexed loop of validateTasks over the individual tasks. -/
def validateTasksFrom : Nat → List Task → VResult
  | _, [] => .ok
  | i, t :: ts =>
    match validateTask t with
    | .ok => validateTasksFrom (i + 1) ts
    | .err e => .err (js "Task " ++ toDecimal (i + 1) ++ js ": " ++ e)

/-- Source src/utils/validators.js lines 259-293: reject an empty list,
reject more than 20 tasks, then validate each task in order.  The input
is typed as a list, so the isArray guard of the source is vacuous here. -/
def validateTasks (tasks : List Task) : VResult :=
  if tasks = [] then .err (js "At least one task is required")
  else if 20 < tasks.length then .err (js "Maximum 20 tasks allowed per schedule")
  else validateTasksFrom 0 tasks

end Validators

namespace SimpleUtils

/-- Task shape produced by parseTask of src/utils.js (no preferred time;
the id is deterministic there but unused by any claim). -/
structure SimpleTask where
  id : List Char
  description : List Char
  priority : List Char
  type : List Char
deriving DecidableEq, Repr

/-- Result object of parseScheduleCommand in src/utils.js: either an error
message or a timeframe with tasks. -/
structure SimpleParse where
  error : Option (List Char)
  timeframe : Option (List Char)
  tasks : List SimpleTask
deriving DecidableEq, Repr

/-- The checks of validateInput that run when no parse error is present:
timeframe required, at least one task, at most 15 tasks.  The tasks field
is typed as a list, so the undefined guard of the source is vacuous. -/
def validateInputChecks (input : SimpleParse) : Validators.VResult :=
  if input.timeframe.getD [] = [] then .err (js "Timeframe is required")
  else if input.tasks = [] then .err (js "At least one task is required")
  else if 15 < input.tasks.length then .err (js "Maximum 15 tasks allowed per schedule")
  else .ok

/-- Source src/utils.js lines 163-181: a truthy parse error is returned as
is, then timeframe presence, then the task-count bounds 1 to 15. -/
def validateInput (input : SimpleParse) : Validators.VResult :=
  match input.error with
  | some e => if e = [] then validateInputChecks input else .err e
  | none => validateInputChecks input

end SimpleUtils

/-- JSON value domain for backend replies.  Numbers are modelled as
rationals (the decimal literals of JSON); the NaN and infinity values of
JavaScript floats are not JSON-parseable and so never arise here. -/
inductive Json where
  | null
  | bool (b : Bool)
  | num (q : Rat)
  | str (s : List Char)
  | arr (items : List Json)
  | obj (fields : List (List Char × Json))

/-- First binding of a key in a JSON object field list (JSON.parse keeps
the last duplicate, but parsed objects carry each key once, which is the
only case the source ever sees). -/
def lookupField : List (List Char × Json) → List Char → Option Json
  | [], _ => none
  | (k, v) :: rest, key => if k = key then some v else lookupField rest key

/-- JavaScript property access on a parsed JSON value: undefined (none)
unless the value is an object carrying the key. -/
def getField : Json → List Char → Option Json
  | .obj fields, key => lookupField fields key
  | _, _ => none

/-- JavaScript truthiness of a parsed JSON value. -/
def truthy : Json → Bool
  | .null => false
  | .bool b => b
  | .num q => q ≠ 0
  | .str s => s ≠ []
  | .arr _ => true
  | .obj _ => true

/-- Truthiness of a property access, with a missing property (undefined)
being falsy. -/
def truthyField (j : Json) (key : List Char) : Bool :=
  match getField j key with
  | some v => truthy v
  | none => false

/-- The schedule-array guard shared by both response validators: the
parsed value must carry a schedule property holding an array.  An array is
always truthy, so the truthiness conjunct of the source collapses into
the Array.isArray test. -/
def hasScheduleArray (j : Json) : Bool :=
  match getField j (js "schedule") with
  | some (.arr _) => true
  | _ => false

/-- The items of the schedule array, empty when absent. -/
def scheduleItems (j : Json) : List Json :=
  match getField j (js "schedule") with
  | some (.arr items) => items
  | _ => []

/-- Per-item guard of parseScheduleResponse: task, start time and end
time must all be truthy. -/
def itemFieldsOk (item : Json) : Bool :=
  truthyField item (js "task") && truthyField item (js "start_time") &&
    truthyField item (js "end_time")

/-- The total task count recorded in the summary of a schedule value. -/
def summaryTotalTasks (j : Json) : Option Json :=
  match getField j (js "summary") with
  | some s => getField s (js "total_tasks")
  | none => none

/-- The diagnostic string of a schedule value, carried in its error
property. -/
def diagnosticOf (j : Json) : Option (List Char) :=
  match getField j (js "error") with
  | some (.str msg) => some msg
  | _ => none

/-- List-of-characters version of String.prototype.startsWith. -/
def startsWithList : List Char → List Char → Bool
  | [], _ => true
  | _ :: _, [] => false
  | p :: ps, c :: cs => p = c && startsWithList ps cs

/-- Axios error shape as far as the two classifiers inspect it: the
optional code string and the optional HTTP status of the response. -/
structure AxiosError where
  code : Option (List Char)
  status : Option Nat
deriving DecidableEq, Repr

/-- Observable steps of a retry loop: one backend call, or one delay of
the given milliseconds inserted before the next call. -/
inductive RetryEvent where
  | call (attempt : Nat)
  | wait (ms : Nat)
deriving DecidableEq, Repr

/-- Expected trace of a retry loop that starts at counter j, suffers k
retryable failures each followed by the delay given for its counter, and
succeeds on the call after the last delay. -/
def retryTrace (delay : Nat → Nat) : Nat → Nat → List RetryEvent
  | j, 0 => [.call j]
  | j, k + 1 => .call j :: .wait (delay j) :: retryTrace delay (j + 1) k

namespace NimService

/-- Global replacement of the code-fence regex of parseScheduleResponse:
at each position remove a backtick fence (the json-tagged opening with its
optional newline, or a closing fence with its optional leading newline),
otherwise keep the character. -/
def stripFences (s : List Char) : List Char :=
  match s with
  | [] => []
  | c :: rest =>
    if startsWithList (js "```json\n") s then stripFences (rest.drop 7)
    else if startsWithList (js "```json") s then stripFences (rest.drop 6)
    else if startsWithList (js "\n```") s then stripFences (rest.drop 3)
    else if startsWithList (js "```") s then stripFences (rest.drop 2)
    else c :: stripFences rest
termination_by s.length
decreasing_by
  all_goals simp only [List.length_drop, List.length_cons]
  all_goals omega

/-- The cleaned response text handed to JSON.parse: fences removed, then
trimmed. -/
def cleanup (response : List Char) : List Char := trimJs (stripFences response)

/-- Source src/nim-service.js lines 169-194: the fallback schedule is a
fixed object (the original response argument is not consulted): one item
from 09:00 to 17:00, a summary with one task and 480 minutes, two generic
recommendations, and a nonempty error string. -/
def createFallbackSchedule (_originalResponse : List Char) : Json :=
  .obj [
    (js "schedule", .arr [
      .obj [
        (js "task_id", .num 1),
        (js "start_time", .str (js "09:00")),
        (js "end_time", .str (js "17:00")),
        (js "duration", .num 480),
        (js "task", .str (js "Review and organize your tasks")),
        (js "priority", .str (js "medium")),
        (js "type", .str (js "general")),
        (js "reasoning", .str (js "AI response could not be parsed - please try again"))
      ]]),
    (js "summary", .obj [
      (js "total_tasks", .num 1),
      (js "total_duration", .num 480),
      (js "productivity_score", .num 5)
    ]),
    (js "recommendations", .arr [
      .str (js "Try rephrasing your tasks or timeframe"),
      .str (js "Ensure tasks follow the format: \x27Description (priority, type)\x27")
    ]),
    (js "error", .str (js "Could not parse AI response - showing fallback schedule"))
  ]

/-- Source src/nim-service.js lines 137-164, with JSON.parse abstracted as
the parse parameter (none models a parse exception).  Every failure path
of the try block lands in the catch, which returns the fallback schedule;
a reply whose schedule array exists and whose items all carry task, start
and end times is returned as parsed. -/
def parseScheduleResponse (parse : List Char → Option Json) (response : List Char) : Json :=
  match parse (cleanup response) with
  | none => createFallbackSchedule response
  | some schedule =>
    if !hasScheduleArray schedule then createFallbackSchedule response
    else if !(scheduleItems schedule).all itemFieldsOk then createFallbackSchedule response
    else schedule

/-- Status test of the 5xx branch of the classifier, with a missing
response (undefined status) comparing false. -/
def statusAtLeast500 (e : AxiosError) : Bool :=
  match e.status with
  | some s => 500 ≤ s
  | none => false

/-- Source src/nim-service.js lines 199-204: retry on the ECONNABORTED
timeout code, on any status of at least 500, and on status 429; nothing
else. -/
def isRetryableError (e : AxiosError) : Bool :=
  if e.code = some (js "ECONNABORTED") then true
  else if statusAtLeast500 e then true
  else if e.status = some 429 then true
  else false

/-- Source src/nim-service.js lines 47-86, retry skeleton of callNIM with
the network modelled as a map from attempt number to outcome: on failure,
while the attempt count has not passed maxRetries and the error is
retryable, wait 1000 times the attempt number (the progressive delay of
line 81) and recurse with attempt plus one.  The returned trace records
calls and waits in order. -/
def callNIM (maxRetries : Nat) (backend : Nat → Except AxiosError (List Char))
    (attempt : Nat) : List RetryEvent × Except AxiosError (List Char) :=
  match backend attempt with
  | .ok reply => ([.call attempt], .ok reply)
  | .error e =>
    if h : attempt ≤ maxRetries ∧ isRetryableError e = true then
      let rest := callNIM maxRetries backend (attempt + 1)
      (.call attempt :: .wait (1000 * attempt) :: rest.1, rest.2)
    else ([.call attempt], .error e)
termination_by maxRetries + 1 - attempt
decreasing_by omega

end NimService

namespace ServicesNim

/-- Source src/services/nim-service.js lines 252-255: retryable exactly on
a status in the fixed list 408, 429, 500, 502, 503, 504 (a missing status
is not in the list) or on the ECONNRESET code. -/
def isRetryableError (e : AxiosError) : Bool :=
  (match e.status with
   | some s => [408, 429, 500, 502, 503, 504].contains s
   | none => false) || e.code = some (js "ECONNRESET")

/-- Source src/services/nim-service.js lines 235-247, retry skeleton of
makeRequest: on failure, while retryCount is below maxRetries and the
error is retryable, wait 2 to the retryCount times 1000 (the exponential
backoff of line 242) and recurse with retryCount plus one. -/
def makeRequest (maxRetries : Nat) (backend : Nat → Except AxiosError (List Char))
    (retryCount : Nat) : List RetryEvent × Except AxiosError (List Char) :=
  match backend retryCount with
  | .ok response => ([.call retryCount], .ok response)
  | .error e =>
    if h : retryCount < maxRetries ∧ isRetryableError e = true then
      let rest := makeRequest maxRetries backend (retryCount + 1)
      (.call retryCount :: .wait (2 ^ retryCount * 1000) :: rest.1, rest.2)
    else ([.call retryCount], .error e)
termination_by maxRetries - retryCount
decreasing_by omega

/-- Source src/services/nim-service.js lines 267-279: throw (modelled as
the error constructor) when the schedule property is not an array, else
return the data unchanged; no per-item checks are performed. -/
def validateScheduleResponse (scheduleData : Json) : Except (List Char) Json :=
  if hasScheduleArray scheduleData then .ok scheduleData
  else .error (js "Invalid schedule format received from NIM")

end ServicesNim

lemma digitVal_digitChar {d : Nat} (h : d < 10) : digitVal (digitChar d) = d := by
  interval_cases d <;> decide

lemma digitChar_ne_colon {d : Nat} (h : d < 10) : digitChar d ≠ ':' := by
  interval_cases d <;> decide

lemma mem_toDecimal (n : Nat) : ∀ c ∈ toDecimal n, ∃ d, d < 10 ∧ c = digitChar d := by
  induction n using Nat.strong_induction_on with
  | _ n ih =>
    rw [toDecimal]
    split
    · intro c hc
      rw [List.mem_singleton] at hc
      exact ⟨n, by omega, hc⟩
    · intro c hc
      rw [List.mem_append, List.mem_singleton] at hc
      rcases hc with hc | hc
      · exact ih (n / 10) (Nat.div_lt_self (by omega) (by omega)) c hc
      · exact ⟨n % 10, Nat.mod_lt _ (by omega), hc⟩

lemma colon_not_mem_toDecimal (n : Nat) : ':' ∉ toDecimal n := by
  intro h
  obtain ⟨d, hd, hc⟩ := mem_toDecimal n ':' h
  exact digitChar_ne_colon hd hc.symm

lemma colon_not_mem_padTwo {cs : List Char} (h : ':' ∉ cs) :
    ':' ∉ padTwo cs := by
  intro hmem
  rw [padTwo, List.mem_append] at hmem
  rcases hmem with hmem | hmem
  · exact absurd (List.eq_of_mem_replicate hmem) (by decide)
  · exact h hmem

lemma foldl_parse_shift (l : List Char) :
    ∀ acc, List.foldl (fun acc c => acc * 10 + digitVal c) acc l =
      acc * 10 ^ l.length + parseDecimal l := by
  induction l with
  | nil => intro acc; simp [parseDecimal]
  | cons c t ih =>
    intro acc
    have h0 : parseDecimal (c :: t) = digitVal c * 10 ^ t.length + parseDecimal t := by
      show List.foldl _ (0 * 10 + digitVal c) t = _
      rw [ih (0 * 10 + digitVal c)]
      ring_nf
    rw [List.foldl_cons, ih (acc * 10 + digitVal c), h0, List.length_cons]
    ring

lemma parseDecimal_append (xs ys : List Char) :
    parseDecimal (xs ++ ys) = parseDecimal xs * 10 ^ ys.length + parseDecimal ys := by
  show List.foldl _ 0 (xs ++ ys) = _
  rw [List.foldl_append, foldl_parse_shift ys (List.foldl _ 0 xs)]
  rfl

lemma parseDecimal_toDecimal (n : Nat) : parseDecimal (toDecimal n) = n := by
  induction n using Nat.strong_induction_on with
  | _ n ih =>
    rw [toDecimal]
    split
    · next h =>
      show List.foldl _ 0 [digitChar n] = n
      simp [digitVal_digitChar h]
    · next h =>
      rw [parseDecimal_append]
      have h1 : parseDecimal [digitChar (n % 10)] = n % 10 := by
        show List.foldl _ 0 [digitChar (n % 10)] = n % 10
        simp [digitVal_digitChar (Nat.mod_lt n (by omega : (0:Nat) < 10))]
      rw [h1, ih (n / 10) (Nat.div_lt_self (by omega) (by omega))]
      simp only [List.length_singleton, pow_one]
      omega

lemma parseDecimal_replicate_zero (k : Nat) :
    parseDecimal (List.replicate k '0') = 0 := by
  induction k with
  | zero => rfl
  | succ k ih =>
    show List.foldl _ 0 (List.replicate (k+1) '0') = 0
    rw [List.replicate_succ, List.foldl_cons]
    have : (0 * 10 + digitVal '0') = 0 := by decide
    rw [this]
    exact ih

lemma parseDecimal_padTwo (cs : List Char) :
    parseDecimal (padTwo cs) = parseDecimal cs := by
  rw [padTwo, parseDecimal_append, parseDecimal_replicate_zero]
  simp

lemma splitOnChar_ne_nil (sep : Char) (l : List Char) : splitOnChar sep l ≠ [] := by
  cases l with
  | nil => simp [splitOnChar]
  | cons c cs =>
    rw [splitOnChar]
    split
    · simp
    · split <;> simp

lemma splitOnChar_of_not_mem {sep : Char} {l : List Char} (h : sep ∉ l) :
    splitOnChar sep l = [l] := by
  induction l with
  | nil => rfl
  | cons c cs ih =>
    rw [List.mem_cons, not_or] at h
    rw [splitOnChar]
    simp only [if_neg (Ne.symm h.1)]
    rw [ih h.2]

lemma splitOnChar_append {sep : Char} {xs : List Char} (ys : List Char)
    (h : sep ∉ xs) :
    splitOnChar sep (xs ++ sep :: ys) = xs :: splitOnChar sep ys := by
  induction xs with
  | nil => simp [splitOnChar]
  | cons c cs ih =>
    rw [List.mem_cons, not_or] at h
    rw [List.cons_append, splitOnChar]
    simp only [if_neg (Ne.symm h.1)]
    rw [ih h.2]


/-- C10: timeToMinutes and minutesToTime form a round trip: for every
natural number m, rendering m as a zero-padded HH:MM string and reading it
back as hours times 60 plus minutes returns m. -/
theorem time_roundtrip (m : Nat) : timeToMinutes (minutesToTime m) = m := by
  have hA : ':' ∉ padTwo (toDecimal (m / 60)) :=
    colon_not_mem_padTwo (colon_not_mem_toDecimal _)
  have hB : ':' ∉ padTwo (toDecimal (m % 60)) :=
    colon_not_mem_padTwo (colon_not_mem_toDecimal _)
  rw [minutesToTime, timeToMinutes]
  rw [splitOnChar_append _ hA, splitOnChar_of_not_mem hB]
  simp only [List.getD_cons_zero, List.getD_cons_succ]
  rw [parseDecimal_padTwo, parseDecimal_padTwo, parseDecimal_toDecimal,
    parseDecimal_toDecimal]
  omega

/-- C2: the spec asserts that the timeframe 9AM-5PM is resolved by the
12-hour matcher to offsets 540 and 1020.  In the code the first matcher
does fire on 9AM-5PM, but parseTimeMatch is an unfinished placeholder
returning null, so normalizeTimeframe returns null and validateTimeframe
rejects the input with the format error.  This theorem evaluates the code
at that failing input. -/
theorem timeframe_matcher_placeholder :
    Validators.matchFmt1 (js "9AM-5PM") = true ∧
    Validators.normalizeTimeframe (js "9AM-5PM") = none ∧
    Validators.validateTimeframe (js "9AM-5PM") =
      .invalid (js "Invalid timeframe format. Use formats like \"9AM-5PM\", \"09:00-17:00\", or \"morning\"") := by
  refine ⟨by decide, by decide, by decide⟩

/-- C4 (amended): the classifier of src/nim-service.js retries exactly on
the ECONNABORTED code, a status of at least 500, or status 429 (408 is
fatal there); the classifier of src/services/nim-service.js retries
exactly on a status in the six-element list 408, 429, 500, 502, 503, 504
or the ECONNRESET code (so a 5xx status such as 501 is fatal there). -/
theorem retryable_classification :
    (∀ e : AxiosError, NimService.isRetryableError e = true ↔
      (e.code = some (js "ECONNABORTED") ∨
        (∃ s, e.status = some s ∧ 500 ≤ s) ∨ e.status = some 429)) ∧
    (∀ e : AxiosError, ServicesNim.isRetryableError e = true ↔
      ((∃ s, e.status = some s ∧
          (s = 408 ∨ s = 429 ∨ s = 500 ∨ s = 502 ∨ s = 503 ∨ s = 504)) ∨
        e.code = some (js "ECONNRESET"))) := by
  constructor
  · rintro ⟨code, status⟩
    cases status with
    | none =>
      simp [NimService.isRetryableError, NimService.statusAtLeast500]
    | some s =>
      simp only [NimService.isRetryableError, NimService.statusAtLeast500]
      split_ifs with h1 h2 h3 <;> simp_all
  · rintro ⟨code, status⟩
    cases status with
    | none =>
      simp [ServicesNim.isRetryableError]
    | some s =>
      simp [ServicesNim.isRetryableError]

/-- C4 counterexample: HTTP 408 is claimed retryable but the classifier of
src/nim-service.js rejects it, and HTTP 501 is a 5xx status claimed
retryable but the classifier of src/services/nim-service.js rejects it. -/
theorem retryable_classification_counterexample :
    NimService.isRetryableError ⟨none, some 408⟩ = false ∧
    ServicesNim.isRetryableError ⟨none, some 501⟩ = false := by
  refine ⟨by decide, by decide⟩

/-- C5 (amended): parseScheduleResponse of src/nim-service.js is total and
returns the fallback schedule exactly when the reply does not parse, the
parsed value lacks a schedule array, or some item lacks a truthy task,
start time or end time, and returns the parsed value otherwise; but
validateScheduleResponse of src/services/nim-service.js raises an error
(rather than degrading to a fallback) whenever the schedule property is
not an array, and performs no per-item checks. -/
theorem response_validation_paths :
    (∀ parse response,
      (parse (NimService.cleanup response) = none →
        NimService.parseScheduleResponse parse response =
          NimService.createFallbackSchedule response) ∧
      (∀ j, parse (NimService.cleanup response) = some j →
        (hasScheduleArray j = false →
          NimService.parseScheduleResponse parse response =
            NimService.createFallbackSchedule response) ∧
        (hasScheduleArray j = true → (scheduleItems j).all itemFieldsOk = false →
          NimService.parseScheduleResponse parse response =
            NimService.createFallbackSchedule response) ∧
        (hasScheduleArray j = true → (scheduleItems j).all itemFieldsOk = true →
          NimService.parseScheduleResponse parse response = j))) ∧
    (∀ j, hasScheduleArray j = false →
      ServicesNim.validateScheduleResponse j =
        .error (js "Invalid schedule format received from NIM")) := by
  constructor
  · intro parse response
    constructor
    · intro h
      rw [NimService.parseScheduleResponse, h]
    · intro j hj
      refine ⟨?_, ?_, ?_⟩
      · intro harr
        rw [NimService.parseScheduleResponse, hj]
        simp [harr]
      · intro harr hitems
        rw [NimService.parseScheduleResponse, hj]
        simp [harr, hitems]
      · intro harr hitems
        rw [NimService.parseScheduleResponse, hj]
        simp [harr, hitems]
  · intro j hj
    rw [ServicesNim.validateScheduleResponse, if_neg (by simp [hj])]

/-- C5 counterexample: the claim says response validation never raises to
the caller, but validateScheduleResponse of src/services/nim-service.js
throws on a parsed object with no schedule array. -/
theorem response_validation_counterexample :
    ServicesNim.validateScheduleResponse (Json.obj []) =
      .error (js "Invalid schedule format received from NIM") := rfl

/-- Witness for C5 at a concrete unparseable reply. -/
theorem response_validation_witness :
    NimService.parseScheduleResponse (fun _ => none) (js "not json") =
      NimService.createFallbackSchedule (js "not json") :=
  (response_validation_paths.1 (fun _ => none) (js "not json")).1 rfl

/-- C1 (amended): for any backend reply that does not parse or whose
parsed value lacks a schedule array, the pipeline returns the fixed
fallback schedule: summary total tasks 1, exactly one item, that item
spanning the constant 09:00 to 17:00 window (540 to 1020 minutes since
midnight) irrespective of the originating request window, and a nonempty
diagnostic error string. -/
theorem fallback_fixed_window :
    ∀ parse response,
      (parse (NimService.cleanup response) = none ∨
        ∃ j, parse (NimService.cleanup response) = some j ∧
          hasScheduleArray j = false) →
      NimService.parseScheduleResponse parse response =
        NimService.createFallbackSchedule response ∧
      summaryTotalTasks (NimService.parseScheduleResponse parse response) =
        some (.num 1) ∧
      (∃ item st en,
        scheduleItems (NimService.parseScheduleResponse parse response) = [item] ∧
        getField item (js "start_time") = some (.str st) ∧
        getField item (js "end_time") = some (.str en) ∧
        timeToMinutes st = 540 ∧ timeToMinutes en = 1020) ∧
      (∃ msg, diagnosticOf (NimService.parseScheduleResponse parse response) =
        some msg ∧ msg ≠ []) := by
  intro parse response h
  have heq : NimService.parseScheduleResponse parse response =
      NimService.createFallbackSchedule response := by
    rcases h with h | ⟨j, hj, harr⟩
    · rw [NimService.parseScheduleResponse, h]
    · rw [NimService.parseScheduleResponse, hj]
      simp [harr]
  refine ⟨heq, ?_, ?_, ?_⟩ <;> rw [heq]
  · rfl
  · exact ⟨_, js "09:00", js "17:00", rfl, rfl, rfl, by decide, by decide⟩
  · exact ⟨_, rfl, by decide⟩

/-- C1 counterexample: take an originating request whose validated window
is the morning preset, 540 to 720.  The fallback item still ends at 17:00,
which is 1020 minutes, not 720, so the fallback item does not span the
requested window. -/
theorem fallback_window_counterexample :
    Validators.validateTimeframe (js "morning") =
      .valid ⟨540, 720, js "09:00 - 12:00"⟩ 180 ∧
    (∃ item en,
      scheduleItems (NimService.parseScheduleResponse (fun _ => none) (js "not json, morning request")) = [item] ∧
      getField item (js "end_time") = some (.str en) ∧
      timeToMinutes en = 1020) ∧
    (1020 : Nat) ≠ 720 := by
  refine ⟨by decide, ⟨_, js "17:00", rfl, rfl, by decide⟩, by decide⟩

/-- Witness for C1 at a concrete unparseable reply. -/
theorem fallback_fixed_window_witness :
    NimService.parseScheduleResponse (fun _ => none) (js "mangled") =
      NimService.createFallbackSchedule (js "mangled") ∧
    summaryTotalTasks (NimService.parseScheduleResponse (fun _ => none) (js "mangled")) =
      some (.num 1) ∧
    (∃ item st en,
      scheduleItems (NimService.parseScheduleResponse (fun _ => none) (js "mangled")) = [item] ∧
      getField item (js "start_time") = some (.str st) ∧
      getField item (js "end_time") = some (.str en) ∧
      timeToMinutes st = 540 ∧ timeToMinutes en = 1020) ∧
    (∃ msg, diagnosticOf (NimService.parseScheduleResponse (fun _ => none) (js "mangled")) =
      some msg ∧ msg ≠ []) :=
  fallback_fixed_window (fun _ => none) (js "mangled") (Or.inl rfl)

/-- C6: after normalization produces offsets (which only the preset path
can do, given the placeholder), validateTimeframe applies the three bound
checks unconditionally: it fails with the order error unless the end is
after the start, fails with the too-short error unless the duration is at
least 60, fails with the too-long error unless the duration is at most
960; hence every timeframe passing validation has a duration between 60
and 960 minutes inclusive. -/
theorem timeframe_bounds_checks :
    (∀ tf n, Validators.normalizeTimeframe (trimJs tf) = some n →
      Validators.validateTimeframe tf = Validators.checkBounds n) ∧
    (∀ n : Validators.TimeNorm,
      (n.endTime ≤ n.startTime →
        Validators.checkBounds n = .invalid (js "End time must be after start time")) ∧
      (n.startTime < n.endTime → n.endTime - n.startTime < 60 →
        Validators.checkBounds n = .invalid (js "Schedule duration must be at least 1 hour")) ∧
      (n.startTime < n.endTime → 960 < n.endTime - n.startTime →
        Validators.checkBounds n = .invalid (js "Schedule duration cannot exceed 16 hours")) ∧
      (n.startTime < n.endTime → 60 ≤ n.endTime - n.startTime →
        n.endTime - n.startTime ≤ 960 →
        Validators.checkBounds n = .valid n (n.endTime - n.startTime))) ∧
    (∀ tf n d, Validators.validateTimeframe tf = .valid n d →
      60 ≤ d ∧ d ≤ 960 ∧ d = n.endTime - n.startTime ∧ n.startTime < n.endTime) := by
  refine ⟨?_, ?_, ?_⟩
  · intro tf n h
    have htf : tf ≠ [] := by
      intro he
      subst he
      rw [show trimJs [] = [] from rfl,
        show Validators.normalizeTimeframe ([] : List Char) = none from by decide] at h
      exact Option.noConfusion h
    rw [Validators.validateTimeframe, if_neg htf, h]
  · intro n
    refine ⟨?_, ?_, ?_, ?_⟩
    · intro h
      simp only [Validators.checkBounds]
      split_ifs <;> first | rfl | omega
    · intro h1 h2
      simp only [Validators.checkBounds]
      split_ifs <;> first | rfl | omega
    · intro h1 h2
      simp only [Validators.checkBounds]
      split_ifs <;> first | rfl | omega
    · intro h1 h2 h3
      simp only [Validators.checkBounds]
      split_ifs <;> first | rfl | omega
  · intro tf n d h
    by_cases htf : tf = []
    · subst htf
      rw [Validators.validateTimeframe, if_pos rfl] at h
      exact Validators.TfResult.noConfusion h
    · rw [Validators.validateTimeframe, if_neg htf] at h
      cases hn : Validators.normalizeTimeframe (trimJs tf) with
      | none =>
        rw [hn] at h
        exact Validators.TfResult.noConfusion h
      | some n' =>
        rw [hn] at h
        simp only [Validators.checkBounds] at h
        split_ifs at h with a b c <;>
          first
          | (obtain ⟨h1, h2⟩ := h
             subst h1
             subst h2
             exact ⟨by omega, by omega, rfl, by omega⟩)
          | (injection h with h1 h2
             subst h1
             subst h2
             exact ⟨by omega, by omega, rfl, by omega⟩)
          | exact Validators.TfResult.noConfusion h

/-- Witness for C6 at the morning preset. -/
theorem timeframe_bounds_checks_witness :
    Validators.validateTimeframe (js "morning") =
      Validators.checkBounds ⟨540, 720, js "09:00 - 12:00"⟩ ∧
    Validators.checkBounds ⟨540, 720, js "09:00 - 12:00"⟩ =
      .valid ⟨540, 720, js "09:00 - 12:00"⟩ 180 ∧
    (60 ≤ 180 ∧ 180 ≤ 960 ∧ 180 = 720 - 540 ∧ 540 < 720) := by
  refine ⟨timeframe_bounds_checks.1 (js "morning") ⟨540, 720, js "09:00 - 12:00"⟩ (by decide), ?_, ?_⟩
  · have h := (timeframe_bounds_checks.2.1 ⟨540, 720, js "09:00 - 12:00"⟩).2.2.2
      (by decide) (by decide) (by decide)
    simpa using h
  · exact timeframe_bounds_checks.2.2 (js "morning") ⟨540, 720, js "09:00 - 12:00"⟩ 180
      (by decide)

/-- C7: a timeframe string on which no format matcher fires and whose
lower-cased form is a preset name resolves to the fixed preset offsets
(morning 540 to 720, afternoon 780 to 1020, evening 1080 to 1260, workday
and business hours 540 to 1020); when the lower-cased form is not in the
preset table either, normalization returns none and validateTimeframe
reports the format error. -/
theorem preset_normalization :
    (∀ s : List Char,
      (Validators.matchFmt1 s || Validators.matchFmt2 s || Validators.matchFmt3 s) = false →
      ((toLowerJs s = js "morning" →
          Validators.normalizeTimeframe s = some ⟨540, 720, js "09:00 - 12:00"⟩) ∧
        (toLowerJs s = js "afternoon" →
          Validators.normalizeTimeframe s = some ⟨780, 1020, js "13:00 - 17:00"⟩) ∧
        (toLowerJs s = js "evening" →
          Validators.normalizeTimeframe s = some ⟨1080, 1260, js "18:00 - 21:00"⟩) ∧
        (toLowerJs s = js "workday" →
          Validators.normalizeTimeframe s = some ⟨540, 1020, js "09:00 - 17:00"⟩) ∧
        (toLowerJs s = js "business hours" →
          Validators.normalizeTimeframe s = some ⟨540, 1020, js "09:00 - 17:00"⟩) ∧
        (Validators.presetLookup (toLowerJs s) = none →
          Validators.normalizeTimeframe s = none))) ∧
    (∀ tf, tf ≠ [] → Validators.normalizeTimeframe (trimJs tf) = none →
      Validators.validateTimeframe tf =
        .invalid (js "Invalid timeframe format. Use formats like \"9AM-5PM\", \"09:00-17:00\", or \"morning\"")) := by
  constructor
  · intro s hno
    have hunfold : Validators.normalizeTimeframe s =
        match Validators.presetLookup (toLowerJs s) with
        | some (st, en) =>
          some ⟨timeToMinutes st, timeToMinutes en, st ++ js " - " ++ en⟩
        | none => none := by
      rw [Validators.normalizeTimeframe, if_neg (by simp [hno])]
    refine ⟨?_, ?_, ?_, ?_, ?_, ?_⟩ <;> intro hl <;> rw [hunfold, hl] <;> rfl
  · intro tf htf hnone
    rw [Validators.validateTimeframe, if_neg htf, hnone]

/-- Witness for C7 at mixed-case preset names and a non-preset string. -/
theorem preset_normalization_witness :
    Validators.normalizeTimeframe (js "MORNING") =
      some ⟨540, 720, js "09:00 - 12:00"⟩ ∧
    Validators.normalizeTimeframe (js "Business Hours") =
      some ⟨540, 1020, js "09:00 - 17:00"⟩ ∧
    Validators.validateTimeframe (js "garbage") =
      .invalid (js "Invalid timeframe format. Use formats like \"9AM-5PM\", \"09:00-17:00\", or \"morning\"") := by
  refine ⟨?_, ?_, ?_⟩
  · exact (preset_normalization.1 (js "MORNING") (by decide)).1 (by decide)
  · exact (preset_normalization.1 (js "Business Hours") (by decide)).2.2.2.2.1 (by decide)
  · exact preset_normalization.2 (js "garbage") (by decide) (by decide)

lemma validateTasksFrom_ok (ts : List Validators.Task) :
    ∀ i : Nat, Validators.validateTasksFrom i ts = .ok ↔
      ∀ t ∈ ts, Validators.validateTask t = .ok := by
  induction ts with
  | nil => intro i; simp [Validators.validateTasksFrom]
  | cons t ts ih =>
    intro i
    cases hv : Validators.validateTask t with
    | ok => simp [Validators.validateTasksFrom, hv, ih]
    | err e => simp [Validators.validateTasksFrom, hv]

lemma validateInputChecks_ok (inp : SimpleUtils.SimpleParse) :
    SimpleUtils.validateInputChecks inp = .ok ↔
      (inp.timeframe.getD [] ≠ [] ∧ 1 ≤ inp.tasks.length ∧ inp.tasks.length ≤ 15) := by
  rw [SimpleUtils.validateInputChecks]
  split_ifs with a b c
  · simp [a]
  · simp [a, b]
  · constructor
    · intro h
      exact h.elim
    · rintro ⟨_, _, hle⟩
      omega
  · constructor
    · intro _h
      exact ⟨a, List.length_pos.mpr b, by omega⟩
    · intro _h
      rfl

/-- C9 (amended): validateTasks of src/utils/validators.js accepts a task
list exactly when its length is between 1 and 20 and every task passes the
per-task validator; validateInput of src/utils.js accepts exactly when no
parse error is set, a timeframe is present, and the task count is between
1 and 15, with no per-task checks.  Either way, every validated request
carries between 1 and 20 tasks. -/
theorem task_count_validation :
    (∀ ts : List Validators.Task, Validators.validateTasks ts = .ok ↔
      (1 ≤ ts.length ∧ ts.length ≤ 20 ∧ ∀ t ∈ ts, Validators.validateTask t = .ok)) ∧
    (∀ inp : SimpleUtils.SimpleParse, SimpleUtils.validateInput inp = .ok ↔
      ((inp.error = none ∨ inp.error = some []) ∧ inp.timeframe.getD [] ≠ [] ∧
        1 ≤ inp.tasks.length ∧ inp.tasks.length ≤ 15)) ∧
    (∀ ts, Validators.validateTasks ts = .ok → 1 ≤ ts.length ∧ ts.length ≤ 20) ∧
    (∀ inp, SimpleUtils.validateInput inp = .ok →
      1 ≤ inp.tasks.length ∧ inp.tasks.length ≤ 20) := by
  have hmain : ∀ ts : List Validators.Task, Validators.validateTasks ts = .ok ↔
      (1 ≤ ts.length ∧ ts.length ≤ 20 ∧ ∀ t ∈ ts, Validators.validateTask t = .ok) := by
    intro ts
    rw [Validators.validateTasks]
    split_ifs with h1 h2
    · simp [h1]
    · constructor
      · intro h
        exact h.elim
      · rintro ⟨_, hle, _⟩
        omega
    · rw [validateTasksFrom_ok]
      constructor
      · intro hall
        exact ⟨List.length_pos.mpr h1, by omega, hall⟩
      · rintro ⟨_, _, hall⟩
        exact hall
  have hinp : ∀ inp : SimpleUtils.SimpleParse, SimpleUtils.validateInput inp = .ok ↔
      ((inp.error = none ∨ inp.error = some []) ∧ inp.timeframe.getD [] ≠ [] ∧
        1 ≤ inp.tasks.length ∧ inp.tasks.length ≤ 15) := by
    intro inp
    rw [SimpleUtils.validateInput]
    cases he : inp.error with
    | none =>
      rw [validateInputChecks_ok]
      simp
    | some e =>
      dsimp only
      split_ifs with hee
      · subst hee
        rw [validateInputChecks_ok]
        simp
      · simp [hee]
  refine ⟨hmain, hinp, ?_, ?_⟩
  · intro ts h
    have hh := (hmain ts).mp h
    exact ⟨hh.1, hh.2.1⟩
  · intro inp h
    have hh := (hinp inp).mp h
    exact ⟨hh.2.2.1, by omega⟩

/-- C9 counterexample: a request with 16 tasks, each of whose contents the
per-task validator accepts, is rejected by validateInput of src/utils.js
with the maximum-15 error, although 16 is within the claimed bound of
20. -/
theorem task_count_counterexample :
    SimpleUtils.validateInput
      ⟨none, some (js "9AM-5PM"),
        List.replicate 16 ⟨js "task_1", js "Review code", js "medium", js "general"⟩⟩ =
      .err (js "Maximum 15 tasks allowed per schedule") ∧
    Validators.validateTask ⟨js "Review code", js "medium", js "general", none⟩ = .ok ∧
    (16 : Nat) ≤ 20 := by
  refine ⟨by decide, by decide, by decide⟩

/-- Witness for C9 at concrete one-task inputs. -/
theorem task_count_validation_witness :
    Validators.validateTasks [⟨js "Review code", js "high", js "general", none⟩] = .ok ∧
    SimpleUtils.validateInput
      ⟨none, some (js "morning"), [⟨js "task_1", js "A", js "medium", js "general"⟩]⟩ = .ok := by
  constructor
  · exact (task_count_validation.1 _).mpr ⟨by decide, by decide, by decide⟩
  · exact (task_count_validation.2.1 _).mpr ⟨Or.inl rfl, by decide, by decide, by decide⟩

lemma makeRequest_run (maxR : Nat) (backend : Nat → Except AxiosError (List Char))
    (r : List Char) :
    ∀ k j, (∀ i, i < k → ∃ e, backend (j + i) = .error e ∧
        ServicesNim.isRetryableError e = true) →
      backend (j + k) = .ok r → j + k ≤ maxR →
      ServicesNim.makeRequest maxR backend j =
        (retryTrace (fun i => 2 ^ i * 1000) j k, .ok r) := by
  intro k
  induction k with
  | zero =>
    intro j _ hok _
    rw [ServicesNim.makeRequest.eq_def,
      show backend j = .ok r from by simpa using hok]
    rfl
  | succ k ih =>
    intro j hfail hok hle
    obtain ⟨e, he, hre⟩ := hfail 0 (Nat.succ_pos k)
    rw [ServicesNim.makeRequest.eq_def,
      show backend j = .error e from by simpa using he]
    dsimp only
    rw [dif_pos ⟨by omega, hre⟩]
    rw [ih (j + 1)
      (fun i hi => by
        have hh := hfail (i + 1) (by omega)
        have heq : j + (i + 1) = j + 1 + i := by omega
        rw [heq] at hh
        exact hh)
      (by
        have heq : j + 1 + k = j + (k + 1) := by omega
        rw [heq]
        exact hok)
      (by omega)]
    rfl

lemma callNIM_run (maxR : Nat) (backend : Nat → Except AxiosError (List Char))
    (r : List Char) :
    ∀ k a, (∀ i, i < k → ∃ e, backend (a + i) = .error e ∧
        NimService.isRetryableError e = true) →
      backend (a + k) = .ok r → a + k ≤ maxR + 1 →
      NimService.callNIM maxR backend a =
        (retryTrace (fun i => 1000 * i) a k, .ok r) := by
  intro k
  induction k with
  | zero =>
    intro a _ hok _
    rw [NimService.callNIM.eq_def,
      show backend a = .ok r from by simpa using hok]
    rfl
  | succ k ih =>
    intro a hfail hok hle
    obtain ⟨e, he, hre⟩ := hfail 0 (Nat.succ_pos k)
    rw [NimService.callNIM.eq_def,
      show backend a = .error e from by simpa using he]
    dsimp only
    rw [dif_pos ⟨by omega, hre⟩]
    rw [ih (a + 1)
      (fun i hi => by
        have hh := hfail (i + 1) (by omega)
        have heq : a + (i + 1) = a + 1 + i := by omega
        rw [heq] at hh
        exact hh)
      (by
        have heq : a + 1 + k = a + (k + 1) := by omega
        rw [heq]
        exact hok)
      (by omega)]
    rfl

/-- C3 (amended): the two retry loops disagree on the backoff law.  In
makeRequest of src/services/nim-service.js the delay before retry k is
1000 times 2 to the power k minus 1 (exponential, as claimed); in callNIM
of src/nim-service.js it is 1000 times k (linear).  In both loops, two
consecutive retryable failures followed by a success give exactly three
backend calls, the second preceded by a 1000 ms delay and the third by a
2000 ms delay, which is why the two laws agree on that scenario. -/
theorem retry_backoff_traces :
    (∀ (maxR k : Nat) (backend : Nat → Except AxiosError (List Char)) (r : List Char),
      (∀ i, i < k → ∃ e, backend i = .error e ∧ ServicesNim.isRetryableError e = true) →
      backend k = .ok r → k ≤ maxR →
      ServicesNim.makeRequest maxR backend 0 =
        (retryTrace (fun i => 2 ^ i * 1000) 0 k, .ok r)) ∧
    (∀ (maxR k : Nat) (backend : Nat → Except AxiosError (List Char)) (r : List Char),
      (∀ i, i < k → ∃ e, backend (1 + i) = .error e ∧ NimService.isRetryableError e = true) →
      backend (1 + k) = .ok r → k ≤ maxR →
      NimService.callNIM maxR backend 1 =
        (retryTrace (fun i => 1000 * i) 1 k, .ok r)) ∧
    (∀ (maxR : Nat) (backend : Nat → Except AxiosError (List Char)) (r : List Char),
      (∀ i, i < 2 → ∃ e, backend i = .error e ∧ ServicesNim.isRetryableError e = true) →
      backend 2 = .ok r → 2 ≤ maxR →
      ServicesNim.makeRequest maxR backend 0 =
        ([.call 0, .wait 1000, .call 1, .wait 2000, .call 2], .ok r)) ∧
    (∀ (maxR : Nat) (backend : Nat → Except AxiosError (List Char)) (r : List Char),
      (∀ i, i < 2 → ∃ e, backend (1 + i) = .error e ∧ NimService.isRetryableError e = true) →
      backend 3 = .ok r → 2 ≤ maxR →
      NimService.callNIM maxR backend 1 =
        ([.call 1, .wait 1000, .call 2, .wait 2000, .call 3], .ok r)) := by
  refine ⟨?_, ?_, ?_, ?_⟩
  · intro maxR k backend r hfail hok hle
    exact makeRequest_run maxR backend r k 0
      (fun i hi => by simpa using hfail i hi) (by simpa using hok) (by omega)
  · intro maxR k backend r hfail hok hle
    exact callNIM_run maxR backend r k 1 hfail hok (by omega)
  · intro maxR backend r hfail hok hle
    exact makeRequest_run maxR backend r 2 0
      (fun i hi => by simpa using hfail i hi) (by simpa using hok) (by omega)
  · intro maxR backend r hfail hok hle
    exact callNIM_run maxR backend r 2 1 hfail (by simpa using hok) (by omega)

/-- C3 counterexample: with three consecutive retryable failures then a
success, the delays of callNIM in src/nim-service.js are 1000, 2000, 3000
milliseconds: linear growth, while the claimed law base times 2 to the
power k minus 1 predicts 4000 before the fourth call. -/
theorem retry_backoff_counterexample :
    NimService.callNIM 3
      (fun n => if n < 4 then .error ⟨none, some 500⟩ else .ok (js "ok")) 1 =
      ([.call 1, .wait 1000, .call 2, .wait 2000, .call 3, .wait 3000, .call 4],
        .ok (js "ok")) ∧
    (3000 : Nat) ≠ 1000 * 2 ^ (3 - 1) := by
  constructor
  · exact callNIM_run 3
      (fun n => if n < 4 then .error ⟨none, some 500⟩ else .ok (js "ok")) (js "ok") 3 1
      (fun i hi => ⟨⟨none, some 500⟩, by simp [show 1 + i < 4 from by omega], by decide⟩)
      rfl (by omega)
  · decide

/-- Witness for C3 at concrete two-failure backends. -/
theorem retry_backoff_witness :
    ServicesNim.makeRequest 3
      (fun n => if n < 2 then .error ⟨none, some 503⟩ else .ok (js "done")) 0 =
      ([.call 0, .wait 1000, .call 1, .wait 2000, .call 2], .ok (js "done")) ∧
    NimService.callNIM 3
      (fun n => if n < 3 then .error ⟨none, some 500⟩ else .ok (js "done")) 1 =
      ([.call 1, .wait 1000, .call 2, .wait 2000, .call 3], .ok (js "done")) := by
  constructor
  · exact retry_backoff_traces.2.2.1 3 _ (js "done")
      (fun i hi => ⟨⟨none, some 503⟩, by simp [show i < 2 from hi], by decide⟩)
      rfl (by omega)
  · exact retry_backoff_traces.2.2.2 3 _ (js "done")
      (fun i hi => ⟨⟨none, some 500⟩, by simp [show 1 + i < 3 from by omega], by decide⟩)
      rfl (by omega)

lemma takeWhile_no_quote {l : List Char} (h : '"' ∉ l) :
    l.takeWhile (fun x => x ≠ '"') = l := by
  induction l with
  | nil => rfl
  | cons c cs ih =>
    rw [List.mem_cons, not_or] at h
    rw [List.takeWhile_cons, if_pos (by simpa using Ne.symm h.1)]
    rw [ih h.2]

lemma dropWhile_no_quote {l : List Char} (h : '"' ∉ l) :
    l.dropWhile (fun x => x ≠ '"') = [] := by
  induction l with
  | nil => rfl
  | cons c cs ih =>
    rw [List.mem_cons, not_or] at h
    rw [List.dropWhile_cons, if_pos (by simpa using Ne.symm h.1)]
    exact ih h.2

lemma takeWhile_quote_append {l : List Char} (h : '"' ∉ l) (u : List Char) :
    (l ++ '"' :: u).takeWhile (fun x => x ≠ '"') = l := by
  induction l with
  | nil => simp [List.takeWhile_cons]
  | cons c cs ih =>
    rw [List.mem_cons, not_or] at h
    rw [List.cons_append, List.takeWhile_cons, if_pos (by simpa using Ne.symm h.1)]
    rw [ih h.2]

lemma dropWhile_quote_append {l : List Char} (h : '"' ∉ l) (u : List Char) :
    (l ++ '"' :: u).dropWhile (fun x => x ≠ '"') = '"' :: u := by
  induction l with
  | nil => simp [List.dropWhile_cons]
  | cons c cs ih =>
    rw [List.mem_cons, not_or] at h
    rw [List.cons_append, List.dropWhile_cons, if_pos (by simpa using Ne.symm h.1)]
    exact ih h.2

lemma tokenize_cons (c : Char) (rest : List Char) :
    Validators.tokenize (c :: rest) =
      if _hq : c = '"' then
        if _hr : rest.dropWhile (fun x => x ≠ '"') = [] then
          if (rest.takeWhile (fun x => x ≠ '"')).isEmpty then []
          else [rest.takeWhile (fun x => x ≠ '"')]
        else
          ('"' :: rest.takeWhile (fun x => x ≠ '"') ++ ['"']) ::
            Validators.tokenize ((rest.dropWhile (fun x => x ≠ '"')).drop 1)
      else
        ((c :: rest).takeWhile (fun x => x ≠ '"')) ::
          Validators.tokenize ((c :: rest).dropWhile (fun x => x ≠ '"')) := by
  rw [Validators.tokenize.eq_def]

lemma tokenize_nil : Validators.tokenize [] = [] := by
  rw [Validators.tokenize.eq_def]

lemma tokenize_quoted {q : List Char} (hq : '"' ∉ q) (u : List Char) :
    Validators.tokenize ('"' :: (q ++ '"' :: u)) =
      ('"' :: q ++ ['"']) :: Validators.tokenize u := by
  rw [tokenize_cons, dif_pos rfl]
  rw [dropWhile_quote_append hq, takeWhile_quote_append hq]
  rw [dif_neg (by simp)]
  rfl

lemma tokenize_run {t : List Char} (ht : t ≠ []) (hq : '"' ∉ t) (u : List Char) :
    Validators.tokenize (t ++ '"' :: u) = t :: Validators.tokenize ('"' :: u) := by
  cases t with
  | nil => exact absurd rfl ht
  | cons c cs =>
    have hc : c ≠ '"' := fun hcq => hq (hcq ▸ List.mem_cons_self c cs)
    have hcs : '"' ∉ cs := fun hmem => hq (List.mem_cons_of_mem c hmem)
    rw [show (c :: cs) ++ '"' :: u = c :: (cs ++ '"' :: u) from rfl]
    rw [tokenize_cons, dif_neg hc]
    rw [show (c :: (cs ++ '"' :: u)).takeWhile (fun x => x ≠ '"') =
        c :: (cs ++ '"' :: u).takeWhile (fun x => x ≠ '"') from by
      rw [List.takeWhile_cons, if_pos (by simpa using hc)]]
    rw [show (c :: (cs ++ '"' :: u)).dropWhile (fun x => x ≠ '"') =
        (cs ++ '"' :: u).dropWhile (fun x => x ≠ '"') from by
      rw [List.dropWhile_cons, if_pos (by simpa using hc)]]
    rw [takeWhile_quote_append hcs, dropWhile_quote_append hcs]

lemma tokenize_only {t : List Char} (ht : t ≠ []) (hq : '"' ∉ t) :
    Validators.tokenize t = [t] := by
  cases t with
  | nil => exact absurd rfl ht
  | cons c cs =>
    have hc : c ≠ '"' := fun hcq => hq (hcq ▸ List.mem_cons_self c cs)
    have hcs : '"' ∉ cs := fun hmem => hq (List.mem_cons_of_mem c hmem)
    rw [tokenize_cons, dif_neg hc]
    rw [show (c :: cs).takeWhile (fun x => x ≠ '"') =
        c :: cs.takeWhile (fun x => x ≠ '"') from by
      rw [List.takeWhile_cons, if_pos (by simpa using hc)]]
    rw [show (c :: cs).dropWhile (fun x => x ≠ '"') =
        cs.dropWhile (fun x => x ≠ '"') from by
      rw [List.dropWhile_cons, if_pos (by simpa using hc)]]
    rw [takeWhile_no_quote hcs, dropWhile_no_quote hcs, tokenize_nil]

lemma getLast?_cons_concat (a b : Char) (l : List Char) :
    (a :: (l ++ [b])).getLast? = some b := by
  induction l generalizing a with
  | nil => rfl
  | cons x xs ih =>
    rw [show (x :: xs) ++ [b] = x :: (xs ++ [b]) from rfl, List.getLast?_cons_cons]
    exact ih x

lemma isQuotedTok_quoted (q : List Char) :
    Validators.isQuotedTok ('"' :: q ++ ['"']) = true := by
  simp [Validators.isQuotedTok, getLast?_cons_concat]

lemma isQuotedTok_run {t : List Char} (ht : t ≠ []) (hq : '"' ∉ t) :
    Validators.isQuotedTok t = false := by
  cases t with
  | nil => exact absurd rfl ht
  | cons c cs =>
    have hc : c ≠ '"' := fun hcq => hq (hcq ▸ List.mem_cons_self c cs)
    simp [Validators.isQuotedTok, hc]

lemma extractTasks_cons_quoted (q : List Char) (toks : List (List Char)) :
    Validators.extractTasks (('"' :: q ++ ['"']) :: toks) =
      Validators.parseTask q :: Validators.extractTasks toks := by
  rw [Validators.extractTasks, Validators.extractTasks]
  rw [List.filter_cons, if_pos (isQuotedTok_quoted q)]
  rw [List.map_cons]
  congr 1
  rw [show ('"' :: q ++ ['"']).drop 1 = q ++ ['"'] from rfl, List.dropLast_concat]

lemma extractTasks_cons_unquoted {t : List Char} (ht : t ≠ []) (hq : '"' ∉ t)
    (toks : List (List Char)) :
    Validators.extractTasks (t :: toks) = Validators.extractTasks toks := by
  rw [Validators.extractTasks, Validators.extractTasks]
  rw [List.filter_cons, if_neg (by simp [isQuotedTok_run ht hq])]

lemma mem_dropWhile_of_neg {p : Char → Bool} {c : Char} {l : List Char}
    (hc : c ∈ l) (hp : p c = false) : c ∈ l.dropWhile p := by
  induction l with
  | nil => cases hc
  | cons a t ih =>
    rw [List.dropWhile_cons]
    split
    · next hpa =>
      rcases List.mem_cons.mp hc with rfl | hct
      · rw [hp] at hpa
        cases hpa
      · exact ih hct
    · exact hc

lemma trimJs_ne_nil {c : Char} {l : List Char} (hc : c ∈ l)
    (hw : isWsChar c = false) : trimJs l ≠ [] := by
  intro h
  rw [trimJs] at h
  have h1 : c ∈ l.dropWhile isWsChar := mem_dropWhile_of_neg hc hw
  have h2 : c ∈ (l.dropWhile isWsChar).reverse := List.mem_reverse.mpr h1
  have h3 : c ∈ (l.dropWhile isWsChar).reverse.dropWhile isWsChar :=
    mem_dropWhile_of_neg h2 hw
  have h4 : c ∈ ((l.dropWhile isWsChar).reverse.dropWhile isWsChar).reverse :=
    List.mem_reverse.mpr h3
  rw [h] at h4
  cases h4

lemma quotedTasksText_cons (sep q : List Char) (tl : List (List Char × List Char)) :
    Validators.quotedTasksText ((sep, q) :: tl) =
      sep ++ '"' :: (q ++ '"' :: Validators.quotedTasksText tl) := by
  rw [Validators.quotedTasksText, Validators.quotedTasksText]
  rw [List.map_cons, List.flatten_cons]
  simp [List.append_assoc]

lemma extractTasks_tokenize :
    ∀ ps : List (List Char × List Char),
      (∀ p ∈ ps, '"' ∉ p.1 ∧ '"' ∉ p.2) →
      Validators.extractTasks (Validators.tokenize (Validators.quotedTasksText ps)) =
        ps.map (fun p => Validators.parseTask p.2) := by
  intro ps
  induction ps with
  | nil =>
    intro _
    rw [show Validators.quotedTasksText [] = [] from rfl, tokenize_nil]
    rfl
  | cons p tl ih =>
    intro hps
    obtain ⟨sep, q⟩ := p
    have hp1 := hps (sep, q) (List.mem_cons_self _ _)
    have hpsep : '"' ∉ sep := hp1.1
    have hpq : '"' ∉ q := hp1.2
    have htl := fun p hp => hps p (List.mem_cons_of_mem _ hp)
    rw [quotedTasksText_cons]
    by_cases hsep : sep = []
    · subst hsep
      rw [List.nil_append]
      rw [tokenize_quoted hpq]
      rw [extractTasks_cons_quoted, ih htl]
      rfl
    · rw [tokenize_run hsep hpsep]
      rw [extractTasks_cons_unquoted hsep hpsep]
      rw [tokenize_quoted hpq]
      rw [extractTasks_cons_quoted, ih htl]
      rfl

/-- C8: a command made of a nonempty quote-free timeframe prefix followed
by N double-quoted task strings (with quote-free separators) parses to
exactly N task entries, in the order the quoted strings appear; and a task
string on which the parenthesized-group regex does not match becomes a
task whose description is the whole trimmed string with priority medium
and type general. -/
theorem command_task_parsing :
    (∀ (t : List Char) (ps : List (List Char × List Char)),
      t ≠ [] → '"' ∉ t →
      (∀ p ∈ ps, '"' ∉ p.1 ∧ '"' ∉ p.2) →
      (Validators.parseScheduleCommand (t ++ Validators.quotedTasksText ps)).tasks =
        ps.map (fun p => Validators.parseTask p.2)) ∧
    (∀ s, Validators.taskMatch s = none →
      Validators.parseTask s = ⟨trimJs s, js "medium", js "general", none⟩) := by
  constructor
  · intro t ps ht htq hps
    cases ps with
    | nil =>
      rw [show Validators.quotedTasksText [] = [] from rfl, List.append_nil]
      rw [Validators.parseScheduleCommand]
      split_ifs with htr
      · rfl
      · rw [tokenize_only ht htq]
        rfl
    | cons p tl =>
      obtain ⟨sep, q⟩ := p
      have hp1 := hps (sep, q) (List.mem_cons_self _ _)
      have hpsep : '"' ∉ sep := hp1.1
      have hpq : '"' ∉ q := hp1.2
      have htl := fun p hp => hps p (List.mem_cons_of_mem _ hp)
      have htext : t ++ Validators.quotedTasksText ((sep, q) :: tl) =
          (t ++ sep) ++ '"' :: (q ++ '"' :: Validators.quotedTasksText tl) := by
        rw [quotedTasksText_cons]
        simp [List.append_assoc]
      rw [htext]
      have hquote_mem : ('"' : Char) ∈
          (t ++ sep) ++ '"' :: (q ++ '"' :: Validators.quotedTasksText tl) := by
        simp
      have htr : trimJs ((t ++ sep) ++ '"' :: (q ++ '"' :: Validators.quotedTasksText tl)) ≠ [] :=
        trimJs_ne_nil hquote_mem (by decide)
      rw [Validators.parseScheduleCommand, if_neg htr]
      have htsep_ne : t ++ sep ≠ [] := by
        intro h
        exact ht (List.append_eq_nil.mp h).1
      have htsep_q : '"' ∉ t ++ sep := by
        intro hmem
        rcases List.mem_append.mp hmem with hmem | hmem
        · exact htq hmem
        · exact hpsep hmem
      rw [tokenize_run htsep_ne htsep_q]
      dsimp only
      rw [tokenize_quoted hpq]
      rw [extractTasks_cons_quoted, extractTasks_tokenize tl htl]
      rfl
  · intro s h
    simp only [Validators.parseTask, h]

/-- Witness for C8 at the Scenario A command and a simple task. -/
theorem command_task_parsing_witness :
    (Validators.parseScheduleCommand
      (js "9AM-5PM " ++ Validators.quotedTasksText
        [([], js "Review code (high, general)"),
         (js " ", js "Team meeting (medium, meeting)")])).tasks =
      [Validators.parseTask (js "Review code (high, general)"),
        Validators.parseTask (js "Team meeting (medium, meeting)")] ∧
    Validators.parseTask (js "Simple task") =
      ⟨js "Simple task", js "medium", js "general", none⟩ := by
  constructor
  · exact command_task_parsing.1 (js "9AM-5PM ") _ (by decide) (by decide) (by decide)
  · have h := command_task_parsing.2 (js "Simple task") (by decide)
    simpa using h

end NimBot
